import Mathlib

/-!
A shallow embedding of the BiPartGen k-partite graph store, its
perfect-matching enumerator, and the symmetry-breaking selector
(src/src/bipartgen.c and the graph implementation file), together with
proofs about the embedded definitions.

Conventions used throughout the embedding:
- C linked lists become Lean `List`s in head-to-tail order
  (appending at the C tail is appending at the end of the list).
- The byte-packed adjacency bitvectors become a `Bool`-valued function
  (one bit per ordered (p1, p2, n1, n2) quadruple).
- C `int` counters that are provably non-negative become `Nat`.
- Heap reads past the end of an allocation (undefined behaviour in the
  original) are modelled with `Option`: `none` is the out-of-bounds read.
- The C `rand()` stream is modelled by a function `Nat → Nat` (the
  sequence of values produced after `srand(seed)`) together with a
  position; `srand` resets the position to 0.
-/

namespace BiPartGen

/-! ## Graph store -/

/-- The k-partite graph structure (`struct k_partite_graph`), without the
matchings repository (which the enumerator below threads separately).
`edgebit p1 p2 n1 n2` is the bit `edges[p1][p2][n1]` slot `n2`. -/
structure Graph where
  partitions : Nat
  partition_sizes : List Nat
  partition_edges : Nat → Nat
  num_neighbors : Nat → Nat → Nat → Nat
  edgebit : Nat → Nat → Nat → Nat → Bool

/-- A graph with no partitions; used as the `Inhabited` default. -/
def emptyGraph : Graph :=
  { partitions := 0, partition_sizes := [],
    partition_edges := fun _ => 0,
    num_neighbors := fun _ _ _ => 0,
    edgebit := fun _ _ _ _ => false }

instance : Inhabited Graph := ⟨emptyGraph⟩

/-- `graph_is_edge_between`: test the adjacency bit. -/
def graph_is_edge_between (g : Graph) (p1 n1 p2 n2 : Nat) : Bool :=
  g.edgebit p1 p2 n1 n2

/-- `graph_get_num_neighbors`: the cached neighbor counter. -/
def graph_get_num_neighbors (g : Graph) (p1 n1 p2 : Nat) : Nat :=
  g.num_neighbors p1 p2 n1

/-- `graph_get_neighbors`: the ascending list of nodes of `p2` adjacent
to `(p1, n1)` (the C function returns exactly the set bits of the row,
in increasing order). -/
def graph_get_neighbors (g : Graph) (p1 n1 p2 : Nat) : List Nat :=
  (List.range (g.partition_sizes.getD p2 0)).filter
    (fun n2 => graph_is_edge_between g p1 n1 p2 n2)

/-- `graph_create_with_sizes`: build an empty graph from the first
`partitions` entries of `sizes`.  The C function `memcpy`s
`partitions * sizeof(int)` bytes out of the caller's array; if the array
is shorter than `partitions` that read is out of bounds, modelled here
as `none`. -/
def graph_create_with_sizes (partitions : Nat) (sizes : List Nat) :
    Option Graph :=
  if partitions ≤ sizes.length then
    some { partitions := partitions,
           partition_sizes := sizes.take partitions,
           partition_edges := fun _ => 0,
           num_neighbors := fun _ _ _ => 0,
           edgebit := fun _ _ _ _ => false }
  else
    none

/-- `graph_create`: the C function fills a `nodes`-entry scratch array
with the value `nodes` (note the loop bound: `nodes`, not `partitions`)
and hands it to `graph_create_with_sizes`. -/
def graph_create (partitions nodes : Nat) : Option Graph :=
  graph_create_with_sizes partitions (List.replicate nodes nodes)

/-- `graph_add_edge`: no-op when the edge is present; otherwise bump both
neighbor counters, bump the partition-edge counter of the smaller
partition, and set both direction bits. -/
def graph_add_edge (g : Graph) (p1 n1 p2 n2 : Nat) : Graph :=
  if graph_is_edge_between g p1 n1 p2 n2 then g
  else
    { g with
      num_neighbors := fun a b c =>
        if a = p1 ∧ b = p2 ∧ c = n1 then g.num_neighbors a b c + 1
        else if a = p2 ∧ b = p1 ∧ c = n2 then g.num_neighbors a b c + 1
        else g.num_neighbors a b c,
      partition_edges := fun a =>
        if a = min p1 p2 then g.partition_edges a + 1 else g.partition_edges a,
      edgebit := fun a b c d =>
        if a = p1 ∧ b = p2 ∧ c = n1 ∧ d = n2 then true
        else if a = p2 ∧ b = p1 ∧ c = n2 ∧ d = n1 then true
        else g.edgebit a b c d }

/-- `graph_fully_connect_node`: add edges from `(p1, n1)` to every node
of `p2`. -/
def graph_fully_connect_node (g : Graph) (p1 n1 p2 : Nat) : Graph :=
  (List.range (g.partition_sizes.getD p2 0)).foldl
    (fun g n2 => graph_add_edge g p1 n1 p2 n2) g

/-- `graph_fully_connect_partition`: fully connect every node of `p1`
to `p2`. -/
def graph_fully_connect_partition (g : Graph) (p1 p2 : Nat) : Graph :=
  (List.range (g.partition_sizes.getD p1 0)).foldl
    (fun g n1 => graph_fully_connect_node g p1 n1 p2) g

/-- The body of `graph_get_edge_id` after its `p1 > p2` canonicalization
(the recursion in the C source swaps arguments at most once, so it is
factored out here): 0 for an absent edge, and otherwise the
partition-edge counters of all partitions below `p1`, plus the neighbor
counters of all lower nodes of `p1` toward every higher partition, plus
the number of set bits below `n2` in the row of `n1`, plus 1. -/
def graph_get_edge_id_le (g : Graph) (p1 n1 p2 n2 : Nat) : Nat :=
  if ¬ graph_is_edge_between g p1 n1 p2 n2 then 0
  else
    ((List.range p1).map g.partition_edges).sum
    + ((List.range n1).map (fun n =>
        ((List.range' (p1 + 1) (g.partitions - (p1 + 1))).map
          (fun p => graph_get_num_neighbors g p1 n p)).sum)).sum
    + ((List.range n2).filter
        (fun n => graph_is_edge_between g p1 n1 p2 n)).length
    + 1

/-- `graph_get_edge_id`: 1-indexed lexicographic edge id; swaps the two
endpoints when `p1 > p2`. -/
def graph_get_edge_id (g : Graph) (p1 n1 p2 n2 : Nat) : Nat :=
  if p2 < p1 then graph_get_edge_id_le g p2 n2 p1 n1
  else graph_get_edge_id_le g p1 n1 p2 n2

/-! ## Matching repository -/

/-- `struct perfect_matching`: one vertex-set record.  The linked list of
`node_ordering` cells becomes the list `orderings` (head first); the
embedded `iterator` pointer becomes an index into that list. -/
structure Matching where
  size : Nat
  p1_nodes : List Nat
  p2_nodes : List Nat
  orderings : List (List Nat)
  iterator : Nat
deriving DecidableEq, Repr

/-- `struct perfect_matching_header`: a bucket, i.e. the counter
`matchings` plus the record list (head first). -/
structure MatchingHeader where
  matchings : Nat
  records : List Matching
deriving DecidableEq, Repr

/-- The 3-D `g->matchings[p1][p2][n1]` array of bucket headers, as a map
from `(p1, p2, n1)` to the bucket.  (A structure around the lookup
function, so that repository values are shared data, not bare
closures.) -/
structure Repo where
  find : Nat → Nat → Nat → MatchingHeader

/-- All buckets empty (`xcalloc`ed headers). -/
def emptyRepo : Repo := ⟨fun _ _ _ => { matchings := 0, records := [] }⟩

/-- Replace one bucket of the repository. -/
def updateRepo (rep : Repo) (p1 p2 root : Nat) (h : MatchingHeader) : Repo :=
  ⟨fun a b c => if a = p1 ∧ b = p2 ∧ c = root then h else rep.find a b c⟩

/-- `graph_get_num_matchings`: the bucket's `matchings` counter. -/
def graph_get_num_matchings (rep : Repo) (p1 n1 p2 : Nat) : Nat :=
  (rep.find p1 p2 n1).matchings

/-- `graph_get_num_similar_matchings`: the number of orderings of one
record (the `num_orderings` field counts the linked list). -/
def graph_get_num_similar_matchings (m : Matching) : Nat :=
  m.orderings.length

/-- `graph_get_matching_size`. -/
def graph_get_matching_size (m : Matching) : Nat := m.size

/-- `graph_get_matching_left_nodes`. -/
def graph_get_matching_left_nodes (m : Matching) : List Nat := m.p1_nodes

/-- `graph_get_matching_right_nodes`. -/
def graph_get_matching_right_nodes (m : Matching) : List Nat := m.p2_nodes

/-- `graph_get_first_matching`: take the bucket head and reset its
ordering iterator to the first ordering.  The C code dereferences the
head pointer unconditionally (`m->iterator = m->head`); a `NULL` head is
the crash branch, modelled as `none`. -/
def graph_get_first_matching (rep : Repo) (p1 n1 p2 : Nat) :
    Option Matching :=
  match (rep.find p1 p2 n1).records with
  | [] => none
  | m :: _ => some { m with iterator := 0 }

/-! ## Matching enumerator -/

/-- `get_shared_neighborhood_size`: size of the common neighborhood of
`verts` — hard-coded from partition 0 into partition 1, as in the C
(progressive intersection of the ascending neighbor lists). -/
def get_shared_neighborhood_size (g : Graph) (verts : List Nat) : Nat :=
  match verts with
  | [] => 0
  | v :: vs =>
    (vs.foldl
      (fun acc w => acc.filter (fun x => (graph_get_neighbors g 0 w 1).contains x))
      (graph_get_neighbors g 0 v 1)).length

/-- `get_pairwise_neighborhood_min_size`: minimum over all index pairs
`i < j` of the shared neighborhood of `{verts[i], verts[j]}`; the C
starts the minimum at `INT_MAX`. -/
def get_pairwise_neighborhood_min_size (g : Graph) (verts : List Nat) : Nat :=
  ((List.range verts.length).flatMap (fun i =>
    (List.range' (i + 1) (verts.length - (i + 1))).map (fun j =>
      get_shared_neighborhood_size g [verts.getD i 0, verts.getD j 0]))).foldl
    min 2147483647

/-- The in-place swap of `hp2os[a]` and `hp2os[b]`. -/
def listSwap (σ : List Nat) (a b : Nat) : List Nat :=
  (σ.set a (σ.getD b 0)).set b (σ.getD a 0)

/-- The orderings of the bucket's tail record (empty if the bucket is
empty). -/
def tailOrderings (h : MatchingHeader) : List (List Nat) :=
  match h.records.getLast? with
  | none => []
  | some t => t.orderings

/-- The `h->tail != NULL && curr->size == helper_size && memcmp(...) == 0`
test: the bucket's tail record exists and matches `(m, L, R)`. -/
def tail_matches (h : MatchingHeader) (m : Nat) (L R : List Nat) : Bool :=
  match h.records.getLast? with
  | none => false
  | some t => t.size == m && t.p1_nodes == L && t.p2_nodes == R

/-- The shared-edge scan of `generate_subset_permutations`: does some
stored ordering agree with `σ` at some position `i ≤ endIdx`? -/
def orderings_share_upto (ords : List (List Nat)) (σ : List Nat)
    (endIdx : Nat) : Bool :=
  ords.any (fun o => (List.range (endIdx + 1)).any
    (fun i => o.getD i 0 == σ.getD i 0))

/-- Append one ordering to the tail record of the record list
(`curr->tail->next = new_ordering; ...`). -/
def append_ordering_to_tail (rs : List Matching) (σ : List Nat) :
    List Matching :=
  match rs with
  | [] => []
  | [t] => [{ t with orderings := t.orderings ++ [σ] }]
  | r :: rs => r :: append_ordering_to_tail rs σ

/-- The storage block at the bottom of `generate_subset_permutations`
(the `lo == helper_size - 1` branch, after the final edge test): if the
bucket's tail record matches `(m, L, R)`, discard `σ` when it shares a
position with a stored ordering, otherwise append it to the tail record;
if the tail does not match, create a fresh one-ordering record at the
bucket tail.  Both storing branches bump `h->matchings`. -/
def store_completed (m : Nat) (L R σ : List Nat) (h : MatchingHeader) :
    MatchingHeader :=
  if tail_matches h m L R then
    if orderings_share_upto (tailOrderings h) σ (m - 1) then h
    else { matchings := h.matchings + 1,
           records := append_ordering_to_tail h.records σ }
  else
    { matchings := h.matchings + 1,
      records := h.records ++
        [{ size := m, p1_nodes := L, p2_nodes := R,
           orderings := [σ], iterator := 0 }] }

/-- The pruning endpoint of the recursive case: when placing the
second-to-last position the whole candidate is determined, so the scan
covers every position. -/
def prune_end (m lo : Nat) : Nat := if lo = m - 2 then m - 1 else lo

/-- `generate_subset_permutations`: backtracking over permutations of the
right subset.  `fuel` only drives termination (the recursion depth is at
most `m`; callers pass `fuel = m`).  The candidate array `hp2os` is the
list `σ`; swapping back after the recursive call is implicit because `σ`
is threaded functionally. -/
def generate_subset_permutations (g : Graph) (hp1 hp2 m : Nat)
    (L R : List Nat) :
    Nat → Nat → List Nat → Repo → Repo
  | 0, _, _, rep => rep
  | fuel + 1, lo, σ, rep =>
    if lo = m - 1 then
      if graph_is_edge_between g hp1 (L.getD lo 0) hp2 (R.getD (σ.getD lo 0) 0) then
        updateRepo rep hp1 hp2 (L.getD 0 0)
          (store_completed m L R σ (rep.find hp1 hp2 (L.getD 0 0)))
      else rep
    else
      (List.range' lo (m - lo)).foldl
        (fun rep i =>
          let σ' := listSwap σ lo i
          if graph_is_edge_between g hp1 (L.getD lo 0) hp2 (R.getD (σ'.getD lo 0) 0) then
            let h := rep.find hp1 hp2 (L.getD 0 0)
            if tail_matches h m L R &&
               orderings_share_upto (tailOrderings h) σ' (prune_end m lo) then
              rep
            else
              generate_subset_permutations g hp1 hp2 m L R fuel (lo + 1) σ' rep
          else rep)
        rep

/-- All ascending `m`-element subsets of `[lo, n)` in lexicographic
order — the sequence produced by the next-combination stepping of the
C `while` loops over `hp1s` / `hp2s`. -/
def combinations : Nat → Nat → Nat → List (List Nat)
  | 0, _, _ => [[]]
  | m + 1, lo, n =>
    (List.range' lo (n - lo)).flatMap (fun first =>
      (combinations m (first + 1) n).map (fun rest => first :: rest))

/-- `generate_permutations`: iterate the left subsets (with the `m = 2`
and `m = 3` shared-neighborhood prunes), then the right subsets, and
run the permutation backtracking with the ordering reset to the
identity. -/
def generate_permutations (g : Graph) (m hp1 hp2 : Nat) (rep : Repo) :
    Repo :=
  let p1_size := g.partition_sizes.getD hp1 0
  let p2_size := g.partition_sizes.getD hp2 0
  (combinations m 0 p1_size).foldl
    (fun rep L =>
      if m = 2 ∧ get_shared_neighborhood_size g L < 2 then rep
      else if m = 3 ∧ get_shared_neighborhood_size g L < 3 ∧
                get_pairwise_neighborhood_min_size g L < 1 then rep
      else
        (combinations m 0 p2_size).foldl
          (fun rep R =>
            generate_subset_permutations g hp1 hp2 m L R m 0 (List.range m) rep)
          rep)
    rep

/-- The singleton-record sweep of `graph_generate_perfect_matchings`:
walk a bucket's record list and remove every record with exactly one
ordering; returns the kept records and how many were removed (each
removal decrements `h->matchings` by one via `graph_remove_matching`). -/
def prune_bucket : List Matching → List Matching × Nat
  | [] => ([], 0)
  | r :: rs =>
    let (kept, removed) := prune_bucket rs
    if graph_get_num_similar_matchings r == 1 then (kept, removed + 1)
    else (r :: kept, removed)

/-- The post-enumeration prune over every `(p1, p2 > p1, n1)` bucket.
The C loop nest visits each valid bucket exactly once and the buckets
are independent, so it is embedded pointwise. -/
def prune_repo (g : Graph) (rep : Repo) : Repo :=
  ⟨fun p1 p2 n1 =>
    if p1 < g.partitions ∧ p1 < p2 ∧ p2 < g.partitions ∧
       n1 < g.partition_sizes.getD p1 0 then
      let h := rep.find p1 p2 n1
      if 0 < graph_get_num_matchings rep p1 n1 p2 then
        let (kept, removed) := prune_bucket h.records
        { matchings := h.matchings - removed, records := kept }
      else h
    else rep.find p1 p2 n1⟩

/-- The enumeration phase of `graph_generate_perfect_matchings`: for
every size `2 ≤ m ≤ up_to_size` and every ordered partition pair
`hp1 < hp2`, run the subset/permutation search. -/
def generate_matchings_loop (g : Graph) (up_to_size : Nat) : Repo :=
  (List.range' 2 (up_to_size - 1)).foldl
    (fun rep m =>
      (List.range g.partitions).foldl
        (fun rep hp1 =>
          (List.range' (hp1 + 1) (g.partitions - (hp1 + 1))).foldl
            (fun rep hp2 => generate_permutations g m hp1 hp2 rep)
            rep)
        rep)
    emptyRepo

/-- `graph_generate_perfect_matchings`: the enumeration phase followed
by the singleton-record prune. -/
def graph_generate_perfect_matchings (g : Graph) (up_to_size : Nat) : Repo :=
  prune_repo g (generate_matchings_loop g up_to_size)

/-! ## Symmetry-breaking selector (`write_cnf_from_graph`, blocked-clause
sections of src/src/bipartgen.c)

The selector walks the buckets `matchings[0][1][i]` for `i` below the
size of partition 0, record by record; both the counting pass and the
emitting pass traverse the same sequence of records, so both are
embedded as folds over that record sequence. -/

/-- `blocking_method_t`. -/
inductive BlockingMethod
  | ALL
  | PROB
  | COUNT
deriving DecidableEq, Repr

/-- The `blocked_edges` / `witness_edges` scratch arrays: a counter per
`(p1-node, p2-node)` cell. -/
def Grid := Nat → Nat → Nat

/-- The zero-initialized grid. -/
def zeroGrid : Grid := fun _ _ => 0

/-- `grid[x][y]++`. -/
def gridBump (gr : Grid) (x y : Nat) : Grid :=
  fun a b => if a = x ∧ b = y then gr a b + 1 else gr a b

/-- The cells `(p1s[n], p2s[p2o[n]])` for `n` below the record size —
the edges of ordering `σ` of record `r`. -/
def matchCells (r : Matching) (σ : List Nat) : List (Nat × Nat) :=
  (List.range r.size).map
    (fun n => (r.p1_nodes.getD n 0, r.p2_nodes.getD (σ.getD n 0) 0))

/-- "No cell of the list is marked in the grid" — the candidate tests of
the witness-avoiding branch. -/
def cellsFree (gr : Grid) (cells : List (Nat × Nat)) : Bool :=
  cells.all (fun c => gr c.1 c.2 == 0)

/-- Mark every cell of the list (increment each counter once per
occurrence). -/
def gridMarkCells (gr : Grid) (cells : List (Nat × Nat)) : Grid :=
  cells.foldl (fun gr c => gridBump gr c.1 c.2) gr

/-- The witness search: index of the first ordering of `r` none of whose
edges is marked in `blocked` (`found_witness` / `witness_idx`). -/
def findWitnessIdx (blocked : Grid) (r : Matching) : Option Nat :=
  (List.range r.orderings.length).find?
    (fun mi => cellsFree blocked (matchCells r (r.orderings.getD mi [])))

/-- `get_variableID`: edge variable id used by the CNF writer. -/
def get_variableID (g : Graph) (p1 n1 p2 n2 : Nat) : Nat :=
  let s := if p1 < p2 then p2 else p1
  let n1N := if p1 < p2 then n1 else n2
  let n2N := if p1 < p2 then n2 else n1
  1 + n2N + (g.partition_sizes.getD s 0) * n1N

/-- The blocking clause printed for ordering `σ` of record `r`: the
negated edge variables `-get_variableID(g, 0, p1s[n], 1, p2s[p2o[n]])`. -/
def blocking_clause (g : Graph) (r : Matching) (σ : List Nat) : List Int :=
  (List.range r.size).map (fun n =>
    -(get_variableID g 0 (r.p1_nodes.getD n 0) 1 (r.p2_nodes.getD (σ.getD n 0) 0) : Int))

/-- The witness-avoiding treatment of one record in the counting pass
(lines 428–493): find a witness against `blocked`, mark its edges into
`witness`, then walk every other ordering and count (and mark into
`blocked`) those whose edges avoid the `witness` grid.  Returns the new
grids and the number of matchings blocked for this record. -/
def count_avoid_record (blocked witness : Grid) (r : Matching) :
    Grid × Grid × Nat :=
  match findWitnessIdx blocked r with
  | none => (blocked, witness, 0)
  | some wi =>
    let wcells := matchCells r (r.orderings.getD wi [])
    let witness' := gridMarkCells witness wcells
    let res := (List.range r.orderings.length).foldl
      (fun s mi =>
        if mi = wi then s
        else
          let cells := matchCells r (r.orderings.getD mi [])
          if cellsFree witness' cells then (gridMarkCells s.1 cells, s.2 + 1)
          else s)
      (blocked, 0)
    (res.1, witness', res.2)

/-- The witness-avoiding treatment of one record in the emitting pass
(lines 602–677): identical decisions, but each blocked ordering is
rendered as a clause. -/
def emit_avoid_record (g : Graph) (blocked witness : Grid) (r : Matching) :
    Grid × Grid × List (List Int) :=
  match findWitnessIdx blocked r with
  | none => (blocked, witness, [])
  | some wi =>
    let wcells := matchCells r (r.orderings.getD wi [])
    let witness' := gridMarkCells witness wcells
    let res := (List.range r.orderings.length).foldl
      (fun s mi =>
        if mi = wi then s
        else
          let cells := matchCells r (r.orderings.getD mi [])
          if cellsFree witness' cells then
            (gridMarkCells s.1 cells,
             s.2 ++ [blocking_clause g r (r.orderings.getD mi [])])
          else s)
      (blocked, [])
    (res.1, witness', res.2)

/-- State of the counting pass: the two grids, the `rand()` stream
position, and `matchings_blocked`. -/
structure CountSt where
  blocked : Grid
  witness : Grid
  pos : Nat
  count : Nat

/-- One record of the counting pass (the body of the `while (m != NULL)`
loop at lines 418–505): witness-avoiding when `-a` was given, otherwise
one `rand()` draw per non-first ordering under PROB, otherwise
(`ALL` and `COUNT` alike) all non-first orderings are counted. -/
def count_record (avoid : Bool) (method : BlockingMethod) (prob : Nat)
    (randSeq : Nat → Nat) (st : CountSt) (r : Matching) : CountSt :=
  if avoid then
    let res := count_avoid_record st.blocked st.witness r
    { st with blocked := res.1, witness := res.2.1,
              count := st.count + res.2.2 }
  else
    match method with
    | .PROB =>
      let draws := graph_get_num_similar_matchings r - 1
      let hits := ((List.range draws).filter
        (fun n => randSeq (st.pos + n) % 1000 < prob)).length
      { st with pos := st.pos + draws, count := st.count + hits }
    | _ =>
      { st with count := st.count + (graph_get_num_similar_matchings r - 1) }

/-- The counting pass (lines 366–512): fresh zeroed grids, `srand`
(position reset) when the method is PROB, then fold over the records. -/
def count_blocked_matchings (avoid : Bool) (method : BlockingMethod)
    (prob : Nat) (randSeq : Nat → Nat) (pos0 : Nat) (rs : List Matching) :
    CountSt :=
  rs.foldl (count_record avoid method prob randSeq)
    { blocked := zeroGrid, witness := zeroGrid,
      pos := if method = BlockingMethod.PROB then 0 else pos0, count := 0 }

/-- State of the emitting pass: grids, `rand()` position, and the
emitted blocking clauses in order. -/
structure EmitSt where
  blocked : Grid
  witness : Grid
  pos : Nat
  clauses : List (List Int)

/-- One record of the emitting pass (lines 592–723).  Under PROB and the
default (`ALL`/`COUNT`) branches the record iterator is advanced before
reading, so the candidates are the orderings at positions `1, …,
num_orderings - 1`. -/
def emit_record (g : Graph) (avoid : Bool) (method : BlockingMethod)
    (prob : Nat) (randSeq : Nat → Nat) (st : EmitSt) (r : Matching) :
    EmitSt :=
  if avoid then
    let res := emit_avoid_record g st.blocked st.witness r
    { st with blocked := res.1, witness := res.2.1,
              clauses := st.clauses ++ res.2.2 }
  else
    match method with
    | .PROB =>
      let draws := graph_get_num_similar_matchings r - 1
      let newCls := ((List.range draws).filter
        (fun n => randSeq (st.pos + n) % 1000 < prob)).map
        (fun n => blocking_clause g r (r.orderings.getD (n + 1) []))
      { st with pos := st.pos + draws, clauses := st.clauses ++ newCls }
    | _ =>
      let newCls := (List.range (graph_get_num_similar_matchings r - 1)).map
        (fun n => blocking_clause g r (r.orderings.getD (n + 1) []))
      { st with clauses := st.clauses ++ newCls }

/-- The emitting pass (lines 570–726): fresh zeroed grids, `srand` again
when the method is PROB, then fold over the records. -/
def write_blocked_clauses (g : Graph) (avoid : Bool)
    (method : BlockingMethod) (prob : Nat) (randSeq : Nat → Nat)
    (pos0 : Nat) (rs : List Matching) : EmitSt :=
  rs.foldl (emit_record g avoid method prob randSeq)
    { blocked := zeroGrid, witness := zeroGrid,
      pos := if method = BlockingMethod.PROB then 0 else pos0, clauses := [] }

/-- The record sequence both passes traverse: the buckets
`matchings[0][1][i]` for `i` below the size of partition 0, each bucket's
records in list order. -/
def selector_records (rep : Repo) (p1_size : Nat) : List Matching :=
  (List.range p1_size).flatMap (fun i => (rep.find 0 1 i).records)

/-! ## Canonical edge enumeration and concrete instances -/

/-- All present edges of the graph in canonical orientation `p1 < p2`,
enumerated in increasing `(p1, n1, p2, n2)` order. -/
def graph_canonical_edges (g : Graph) : List (Nat × Nat × Nat × Nat) :=
  (List.range g.partitions).flatMap (fun p1 =>
    (List.range (g.partition_sizes.getD p1 0)).flatMap (fun n1 =>
      (List.range' (p1 + 1) (g.partitions - (p1 + 1))).flatMap (fun p2 =>
        ((List.range (g.partition_sizes.getD p2 0)).filter
          (fun n2 => graph_is_edge_between g p1 n1 p2 n2)).map
          (fun n2 => (p1, n1, p2, n2)))))

/-- The edge ids of all canonical present edges, in enumeration order. -/
def graph_canonical_edge_ids (g : Graph) : List Nat :=
  (graph_canonical_edges g).map
    (fun e => graph_get_edge_id g e.1 e.2.1 e.2.2.1 e.2.2.2)

/-- The complete bipartite graph `K_{2,2}` (two partitions of two nodes,
all four edges present, with consistent counters). -/
def K22 : Graph :=
  { partitions := 2, partition_sizes := [2, 2],
    partition_edges := fun i => if i = 0 then 4 else 0,
    num_neighbors := fun p1 p2 n1 =>
      if ((p1 = 0 ∧ p2 = 1) ∨ (p1 = 1 ∧ p2 = 0)) ∧ n1 < 2 then 2 else 0,
    edgebit := fun p1 p2 n1 n2 =>
      decide (((p1 = 0 ∧ p2 = 1) ∨ (p1 = 1 ∧ p2 = 0)) ∧ n1 < 2 ∧ n2 < 2) }

/-- The complete bipartite graph `K_{3,3}`. -/
def K33 : Graph :=
  { partitions := 2, partition_sizes := [3, 3],
    partition_edges := fun i => if i = 0 then 9 else 0,
    num_neighbors := fun p1 p2 n1 =>
      if ((p1 = 0 ∧ p2 = 1) ∨ (p1 = 1 ∧ p2 = 0)) ∧ n1 < 3 then 3 else 0,
    edgebit := fun p1 p2 n1 n2 =>
      decide (((p1 = 0 ∧ p2 = 1) ∨ (p1 = 1 ∧ p2 = 0)) ∧ n1 < 3 ∧ n2 < 3) }

/-- A 3-partite graph with one node per partition and the two edges
`(0,0)–(1,0)` and `(0,0)–(2,0)`, built through the graph API. -/
def tripartiteTwoEdges : Graph :=
  match graph_create_with_sizes 3 [1, 1, 1] with
  | some g => graph_add_edge (graph_add_edge g 0 0 1 0) 0 0 2 0
  | none => emptyGraph

/-- A bucket whose tail record is the `K_{3,3}` full record holding the
single ordering `[0,1,2]` — the state of bucket `(0,1,0)` right after
that record is created during enumeration of `K_{3,3}` at size 3
(restricted to the size-3 record for readability). -/
def sampleBucket : MatchingHeader :=
  { matchings := 1,
    records := [{ size := 3, p1_nodes := [0, 1, 2], p2_nodes := [0, 1, 2],
                  orderings := [[0, 1, 2]], iterator := 0 }] }

/-- The `K_{2,2}` full record (both orderings), as produced by the
enumerator; used to instantiate selector theorems. -/
def sampleRecord22 : Matching :=
  { size := 2, p1_nodes := [0, 1], p2_nodes := [0, 1],
    orderings := [[0, 1], [1, 0]], iterator := 0 }

/-! ## Invariants -/

/-- Soundness of one record filed under partition pair `(p1, p2)`: every
stored ordering maps every position to an edge of the graph. -/
def SoundRecord (g : Graph) (p1 p2 : Nat) (r : Matching) : Prop :=
  ∀ σ ∈ r.orderings, ∀ t < r.size,
    graph_is_edge_between g p1 (r.p1_nodes.getD t 0) p2
      (r.p2_nodes.getD (σ.getD t 0) 0) = true

/-- The bucket invariant maintained by the enumerator: the `matchings`
counter equals the total number of stored orderings (it is incremented
once per stored ordering and decremented once per removal), and every
record holds at least one sound ordering list. -/
def GoodBucket (g : Graph) (p1 p2 : Nat) (h : MatchingHeader) : Prop :=
  h.matchings = (h.records.map (fun r => r.orderings.length)).sum
  ∧ ∀ r ∈ h.records, r.orderings ≠ [] ∧ SoundRecord g p1 p2 r

/-- The repository invariant: every bucket is good. -/
def GoodRepo (g : Graph) (rep : Repo) : Prop :=
  ∀ p1 p2 root, GoodBucket g p1 p2 (rep.find p1 p2 root)

/-- The candidate invariant of the permutation backtracking: positions
below `lo` of the candidate ordering already map to edges. -/
def PrefixSound (g : Graph) (hp1 hp2 : Nat) (L R σ : List Nat) (lo : Nat) :
    Prop :=
  ∀ t < lo,
    graph_is_edge_between g hp1 (L.getD t 0) hp2 (R.getD (σ.getD t 0) 0) = true

/-- The selector grid invariant: no cell is marked in both the `blocked`
and the `witness` grid. -/
def GridInv (blocked witness : Grid) : Prop :=
  ∀ x y, witness x y ≠ 0 → blocked x y = 0

/-! ## Theorems -/

/-! ### Helper lemmas on buckets -/

lemma tail_matches_ne_nil {h : MatchingHeader} {m : Nat} {L R : List Nat}
    (ht : tail_matches h m L R = true) : h.records ≠ [] := by
  intro hnil
  simp [tail_matches, hnil] at ht

lemma append_ordering_to_tail_getLast (rs : List Matching) (σ : List Nat)
    (t : Matching) (h : rs.getLast? = some t) :
    (append_ordering_to_tail rs σ).getLast?
      = some { t with orderings := t.orderings ++ [σ] } := by
  induction rs with
  | nil => simp at h
  | cons r rs ih =>
    cases rs with
    | nil =>
      simp only [List.getLast?_singleton, Option.some.injEq] at h
      subst h
      simp [append_ordering_to_tail]
    | cons r' rs' =>
      rw [List.getLast?_cons_cons] at h
      have hih := ih h
      cases hA : append_ordering_to_tail (r' :: rs') σ with
      | nil => cases rs' <;> simp [append_ordering_to_tail] at hA
      | cons y ys =>
        rw [hA] at hih
        show ((r :: append_ordering_to_tail (r' :: rs') σ).getLast? = _)
        rw [hA, List.getLast?_cons_cons]
        exact hih

/-- Claim C9: the code intends `graph_create k n` to equal
`graph_create_with_sizes k s` with `s` the length-`k` all-`n` array, but
its fill loop runs over `nodes` instead of `partitions`; at
`partitions = 3, nodes = 2` the `memcpy` inside
`graph_create_with_sizes` reads past the 2-entry scratch array
(modelled as `none`), while the intended call succeeds. -/
theorem C9_graph_create_truncated_sizes :
    graph_create 3 2 = none
    ∧ (graph_create_with_sizes 3 (List.replicate 3 2)).isSome = true := by
  constructor
  · rfl
  · rfl

/-- Claim C4 (counterexample): with the `K_{3,3}` full record as bucket
tail holding only the ordering `[0,1,2]`, the completed ordering
`[0,2,1]` is not identical to any stored ordering, yet the storage step
discards it (the bucket is returned unchanged) instead of appending it —
because it agrees with `[0,1,2]` at position 0. -/
theorem C4_counterexample :
    store_completed 3 [0, 1, 2] [0, 1, 2] [0, 2, 1] sampleBucket = sampleBucket
    ∧ (tailOrderings sampleBucket).contains [0, 2, 1] = false
    ∧ tail_matches sampleBucket 3 [0, 1, 2] [0, 1, 2] = true := by
  refine ⟨by decide, by decide, by decide⟩

/-- Claim C4 (amended): when the bucket tail record matches `(m, L, R)`,
a completed ordering is discarded if and only if it agrees at some
position below `m` with some ordering already stored in that record (in
particular every identical duplicate is discarded); otherwise it is
appended at the end of the tail record's ordering list. -/
theorem C4_amended_shared_edge_discard (h : MatchingHeader) (m : Nat)
    (L R σ : List Nat) (ht : tail_matches h m L R = true) :
    (store_completed m L R σ h = h
      ↔ orderings_share_upto (tailOrderings h) σ (m - 1) = true)
    ∧ (orderings_share_upto (tailOrderings h) σ (m - 1) = false →
        tailOrderings (store_completed m L R σ h) = tailOrderings h ++ [σ]) := by
  constructor
  · constructor
    · intro heq
      by_contra hshare
      rw [Bool.not_eq_true] at hshare
      have : (store_completed m L R σ h).matchings = h.matchings + 1 := by
        simp [store_completed, ht, hshare]
      rw [heq] at this
      omega
    · intro hshare
      simp [store_completed, ht, hshare]
  · intro hshare
    obtain ⟨t, hlast⟩ : ∃ t, h.records.getLast? = some t := by
      cases hl : h.records.getLast? with
      | none =>
        exact absurd (List.getLast?_eq_none_iff.mp hl) (tail_matches_ne_nil ht)
      | some t => exact ⟨t, rfl⟩
    have hshare' : orderings_share_upto t.orderings σ (m - 1) = false := by
      simpa [tailOrderings, hlast] using hshare
    simp [store_completed, ht, hshare', tailOrderings, hlast,
      append_ordering_to_tail_getLast _ _ _ hlast]

/-- Closed instance of the amended claim C4 at the sample bucket with
the position-disjoint candidate `[1,2,0]`. -/
theorem C4_amended_witness :
    tail_matches sampleBucket 3 [0, 1, 2] [0, 1, 2] = true
    ∧ tailOrderings
        (store_completed 3 [0, 1, 2] [0, 1, 2] [1, 2, 0] sampleBucket)
      = tailOrderings sampleBucket ++ [[1, 2, 0]] := by
  refine ⟨by decide, ?_⟩
  exact (C4_amended_shared_edge_discard sampleBucket 3 [0, 1, 2] [0, 1, 2]
    [1, 2, 0] (by decide)).2 (by decide)

set_option maxRecDepth 200000 in
/-- Claim C5 (counterexample): on `K_{3,3}` with `maxSize = 3` the
single record covering all three nodes on each side holds 3 orderings,
not `3! = 6` — the enumerator only keeps orderings that share no
position with previously stored ones. -/
theorem C5_counterexample :
    ((graph_generate_perfect_matchings K33 3).find 0 1 0).records.filterMap
      (fun r => if r.size == 3 then
        some (r.p1_nodes, r.p2_nodes, r.orderings.length) else none)
      = [([0, 1, 2], [0, 1, 2], 3)]
    ∧ 3 ≠ Nat.factorial 3 := by
  constructor
  · decide
  · decide

set_option maxRecDepth 200000 in
/-- Claim C5 (amended, small cases): on `K_{2,2}` with `maxSize = 2` the
enumeration stores exactly the `2! = 2` orderings `[0,1]` and `[1,0]` in
the single full record, while on `K_{3,3}` with `maxSize = 3` the full
record stores exactly the three pairwise position-disjoint orderings
`[0,1,2]`, `[1,2,0]`, `[2,0,1]` (fewer than `3!`). -/
theorem C5_amended_small_cases :
    ((graph_generate_perfect_matchings K22 2).find 0 1 0).records
      = [sampleRecord22]
    ∧ Nat.factorial 2 = 2
    ∧ ((graph_generate_perfect_matchings K33 3).find 0 1 0).records.filterMap
        (fun r => if r.size == 3 then some r.orderings else none)
      = [[[0, 1, 2], [1, 2, 0], [2, 0, 1]]] := by
  refine ⟨by decide, by decide, by decide⟩

/-- Claim C7 (counterexample): on a 3-partite graph with the two edges
`(0,0)–(1,0)` and `(0,0)–(2,0)`, enumerating the canonical present
edges yields the edge ids `[1, 1]` — a repeat, not `1..E`. -/
theorem C7_counterexample :
    graph_canonical_edge_ids tripartiteTwoEdges = [1, 1]
    ∧ (graph_canonical_edges tripartiteTwoEdges).length = 2
    ∧ ¬ (graph_canonical_edge_ids tripartiteTwoEdges).Nodup := by
  refine ⟨by decide, by decide, by decide⟩

/-! ### Selector lemmas -/

lemma range_map_getD_succ {α β : Type} (d : α) (f : α → β) :
    ∀ t : List α, (List.range t.length).map (fun n => f (t.getD n d)) = t.map f := by
  intro t
  induction t with
  | nil => rfl
  | cons b t ih =>
    show (List.range (t.length + 1)).map _ = _
    rw [List.range_succ_eq_map]
    simp only [List.map_cons, List.map_map]
    refine congrArg (f b :: ·) ?_
    have hcomp : ((fun n => f ((b :: t).getD n d)) ∘ Nat.succ)
        = fun n => f (t.getD n d) := by
      funext n
      simp [List.getD_cons_succ]
    rw [hcomp]
    exact ih

lemma range_pred_map_getD_drop {α β : Type} (d : α) (f : α → β) (l : List α) :
    (List.range (l.length - 1)).map (fun n => f (l.getD (n + 1) d))
      = (l.drop 1).map f := by
  cases l with
  | nil => rfl
  | cons a t =>
    show (List.range (t.length + 1 - 1)).map _ = t.map f
    simpa using range_map_getD_succ d f t

lemma emit_all_clauses (g : Graph) (prob : Nat) (randSeq : Nat → Nat) :
    ∀ (rs : List Matching) (st : EmitSt),
      (rs.foldl (emit_record g false BlockingMethod.ALL prob randSeq) st).clauses
        = st.clauses
          ++ rs.flatMap (fun r => (r.orderings.drop 1).map (blocking_clause g r)) := by
  intro rs
  induction rs with
  | nil => intro st; simp
  | cons r rs ih =>
    intro st
    rw [List.foldl_cons, ih]
    show (EmitSt.clauses { st with clauses := st.clauses ++ _ }) ++ _ = _
    simp only [List.flatMap_cons, List.append_assoc]
    refine congrArg (st.clauses ++ ·) (congrArg (· ++ _) ?_)
    exact range_pred_map_getD_drop ([] : List Nat) (blocking_clause g r) r.orderings

/-- Claim C8: the selector behaves identically under the COUNT and the
ALL policies (the COUNT cutoff is commented out in the source): the
counting pass produces the same state and count, the emitting pass
produces the same state and the same clauses in the same order, and the
ALL policy (without the overlap-avoiding option) emits exactly one
blocking clause for every ordering except the first of each record, in
generation order. -/
theorem C8_count_policy_equals_all (g : Graph) (avoid : Bool) (prob : Nat)
    (randSeq : Nat → Nat) (pos0 : Nat) (rs : List Matching) :
    count_blocked_matchings avoid BlockingMethod.COUNT prob randSeq pos0 rs
      = count_blocked_matchings avoid BlockingMethod.ALL prob randSeq pos0 rs
    ∧ write_blocked_clauses g avoid BlockingMethod.COUNT prob randSeq pos0 rs
      = write_blocked_clauses g avoid BlockingMethod.ALL prob randSeq pos0 rs
    ∧ (write_blocked_clauses g false BlockingMethod.ALL prob randSeq pos0 rs).clauses
      = rs.flatMap (fun r => (r.orderings.drop 1).map (blocking_clause g r)) := by
  refine ⟨rfl, rfl, ?_⟩
  simpa using emit_all_clauses g prob randSeq rs
    { blocked := zeroGrid, witness := zeroGrid, pos := pos0, clauses := [] }

lemma avoid_fold_parity (g : Graph) (r : Matching) (wi : Nat)
    (witness' : Grid) :
    ∀ (l : List Nat) (b : Grid) (n : Nat) (cl : List (List Int)),
      n = cl.length →
      (l.foldl
        (fun s mi =>
          if mi = wi then s
          else
            let cells := matchCells r (r.orderings.getD mi [])
            if cellsFree witness' cells then (gridMarkCells s.1 cells, s.2 + 1)
            else s)
        (b, n)).1
      = (l.foldl
          (fun s mi =>
            if mi = wi then s
            else
              let cells := matchCells r (r.orderings.getD mi [])
              if cellsFree witness' cells then
                (gridMarkCells s.1 cells,
                 s.2 ++ [blocking_clause g r (r.orderings.getD mi [])])
              else s)
          (b, cl)).1
      ∧ (l.foldl
          (fun s mi =>
            if mi = wi then s
            else
              let cells := matchCells r (r.orderings.getD mi [])
              if cellsFree witness' cells then (gridMarkCells s.1 cells, s.2 + 1)
              else s)
          (b, n)).2
        = (l.foldl
            (fun s mi =>
              if mi = wi then s
              else
                let cells := matchCells r (r.orderings.getD mi [])
                if cellsFree witness' cells then
                  (gridMarkCells s.1 cells,
                   s.2 ++ [blocking_clause g r (r.orderings.getD mi [])])
                else s)
            (b, cl)).2.length := by
  intro l
  induction l with
  | nil => intro b n cl hn; exact ⟨rfl, hn⟩
  | cons mi l ih =>
    intro b n cl hn
    by_cases hwi : mi = wi
    · simpa [hwi] using ih b n cl hn
    · by_cases hfree :
        cellsFree witness' (matchCells r (r.orderings.getD mi [])) = true
      · simp only [List.foldl_cons, hwi, if_false, hfree, if_true]
        exact ih _ _ _ (by simp [hn])
      · simp only [List.foldl_cons, hwi, if_false, Bool.not_eq_true] at hfree ⊢
        simp only [hfree, Bool.false_eq_true, if_false]
        exact ih b n cl hn

lemma avoid_record_parity (g : Graph) (b w : Grid) (r : Matching) :
    (count_avoid_record b w r).1 = (emit_avoid_record g b w r).1
    ∧ (count_avoid_record b w r).2.1 = (emit_avoid_record g b w r).2.1
    ∧ (count_avoid_record b w r).2.2 = (emit_avoid_record g b w r).2.2.length := by
  cases hf : findWitnessIdx b r with
  | none => simp [count_avoid_record, emit_avoid_record, hf]
  | some wi =>
    have h := avoid_fold_parity g r wi
      (gridMarkCells w (matchCells r (r.orderings.getD wi [])))
      (List.range r.orderings.length) b 0 [] rfl
    refine ⟨?_, ?_, ?_⟩ <;>
      simp only [count_avoid_record, emit_avoid_record, hf] <;>
      first
      | exact h.1
      | exact h.2

lemma record_parity (g : Graph) (avoid : Bool) (method : BlockingMethod)
    (prob : Nat) (randSeq : Nat → Nat) (stc : CountSt) (ste : EmitSt)
    (r : Matching) (h1 : stc.blocked = ste.blocked)
    (h2 : stc.witness = ste.witness) (h3 : stc.pos = ste.pos)
    (h4 : stc.count = ste.clauses.length) :
    (count_record avoid method prob randSeq stc r).blocked
      = (emit_record g avoid method prob randSeq ste r).blocked
    ∧ (count_record avoid method prob randSeq stc r).witness
      = (emit_record g avoid method prob randSeq ste r).witness
    ∧ (count_record avoid method prob randSeq stc r).pos
      = (emit_record g avoid method prob randSeq ste r).pos
    ∧ (count_record avoid method prob randSeq stc r).count
      = (emit_record g avoid method prob randSeq ste r).clauses.length := by
  cases stc with
  | mk cb cw cp cc =>
    cases ste with
    | mk eb ew ep ecl =>
      simp only at h1 h2 h3 h4
      subst h1
      subst h2
      subst h3
      subst h4
      cases avoid with
      | true =>
        have hav := avoid_record_parity g cb cw r
        refine ⟨?_, ?_, ?_, ?_⟩ <;>
          simp [count_record, emit_record, hav.1, hav.2.1, hav.2.2]
      | false =>
        cases method with
        | PROB =>
          refine ⟨?_, ?_, ?_, ?_⟩ <;> simp [count_record, emit_record]
        | ALL =>
          refine ⟨?_, ?_, ?_, ?_⟩ <;> simp [count_record, emit_record]
        | COUNT =>
          refine ⟨?_, ?_, ?_, ?_⟩ <;> simp [count_record, emit_record]

/-- The lockstep relation between the two passes: identical grids,
identical stream position, and a counter equal to the number of emitted
clauses. -/
lemma pass_parity (g : Graph) (avoid : Bool) (method : BlockingMethod)
    (prob : Nat) (randSeq : Nat → Nat) :
    ∀ (rs : List Matching) (stc : CountSt) (ste : EmitSt),
      stc.blocked = ste.blocked → stc.witness = ste.witness →
      stc.pos = ste.pos → stc.count = ste.clauses.length →
      (rs.foldl (count_record avoid method prob randSeq) stc).blocked
        = (rs.foldl (emit_record g avoid method prob randSeq) ste).blocked
      ∧ (rs.foldl (count_record avoid method prob randSeq) stc).witness
        = (rs.foldl (emit_record g avoid method prob randSeq) ste).witness
      ∧ (rs.foldl (count_record avoid method prob randSeq) stc).pos
        = (rs.foldl (emit_record g avoid method prob randSeq) ste).pos
      ∧ (rs.foldl (count_record avoid method prob randSeq) stc).count
        = (rs.foldl (emit_record g avoid method prob randSeq) ste).clauses.length := by
  intro rs
  induction rs with
  | nil => intro stc ste h1 h2 h3 h4; exact ⟨h1, h2, h3, h4⟩
  | cons r rs ih =>
    intro stc ste h1 h2 h3 h4
    simp only [List.foldl_cons]
    have hstep := record_parity g avoid method prob randSeq stc ste r h1 h2 h3 h4
    exact ih _ _ hstep.1 hstep.2.1 hstep.2.2.1 hstep.2.2.2

/-- Claim C3: with the same pseudo-random sequence and start position
(the PROB branch re-seeds both passes), the counting pass and the
emitting pass of the selector make identical blocking decisions over any
record sequence under every policy: final grids and stream positions
coincide and the counted total equals the number of emitted clauses. -/
theorem C3_count_emit_parity (g : Graph) (avoid : Bool)
    (method : BlockingMethod) (prob : Nat) (randSeq : Nat → Nat)
    (pos0 : Nat) (rs : List Matching) :
    (count_blocked_matchings avoid method prob randSeq pos0 rs).count
      = (write_blocked_clauses g avoid method prob randSeq pos0 rs).clauses.length
    ∧ (count_blocked_matchings avoid method prob randSeq pos0 rs).blocked
      = (write_blocked_clauses g avoid method prob randSeq pos0 rs).blocked
    ∧ (count_blocked_matchings avoid method prob randSeq pos0 rs).witness
      = (write_blocked_clauses g avoid method prob randSeq pos0 rs).witness
    ∧ (count_blocked_matchings avoid method prob randSeq pos0 rs).pos
      = (write_blocked_clauses g avoid method prob randSeq pos0 rs).pos := by
  have := pass_parity g avoid method prob randSeq rs
    { blocked := zeroGrid, witness := zeroGrid,
      pos := if method = BlockingMethod.PROB then 0 else pos0, count := 0 }
    { blocked := zeroGrid, witness := zeroGrid,
      pos := if method = BlockingMethod.PROB then 0 else pos0, clauses := [] }
    rfl rfl rfl rfl
  exact ⟨this.2.2.2, this.1, this.2.1, this.2.2.1⟩

/-! ### Grid lemmas for the witness-avoiding selector -/

lemma gridBump_ne_zero_of (gr : Grid) (x y a b : Nat) (h : gr a b ≠ 0) :
    gridBump gr x y a b ≠ 0 := by
  simp only [gridBump]
  split <;> omega

lemma gridMarkCells_ne_zero_of (cells : List (Nat × Nat)) :
    ∀ (gr : Grid) (a b : Nat), gr a b ≠ 0 → gridMarkCells gr cells a b ≠ 0 := by
  induction cells with
  | nil => intro gr a b h; exact h
  | cons c cs ih =>
    intro gr a b h
    exact ih (gridBump gr c.1 c.2) a b (gridBump_ne_zero_of gr c.1 c.2 a b h)

lemma gridMarkCells_ne_zero_of_mem (cells : List (Nat × Nat)) :
    ∀ (gr : Grid) (c : Nat × Nat), c ∈ cells →
      gridMarkCells gr cells c.1 c.2 ≠ 0 := by
  induction cells with
  | nil => intro gr c hc; cases hc
  | cons d cs ih =>
    intro gr c hc
    rcases List.mem_cons.mp hc with hcd | hcs
    · subst hcd
      refine gridMarkCells_ne_zero_of cs (gridBump gr c.1 c.2) c.1 c.2 ?_
      simp [gridBump]
    · exact ih (gridBump gr d.1 d.2) c hcs

lemma gridMarkCells_eq_of_not_mem (cells : List (Nat × Nat)) :
    ∀ (gr : Grid) (a b : Nat), (a, b) ∉ cells →
      gridMarkCells gr cells a b = gr a b := by
  induction cells with
  | nil => intro gr a b _; rfl
  | cons d cs ih =>
    intro gr a b h
    have hd : (a, b) ≠ d := fun hh => h (hh ▸ List.mem_cons_self d cs)
    have hcs : (a, b) ∉ cs := fun hh => h (List.mem_cons_of_mem d hh)
    show gridMarkCells (gridBump gr d.1 d.2) cs a b = gr a b
    rw [ih (gridBump gr d.1 d.2) a b hcs]
    simp only [gridBump]
    split
    · next hab =>
      exact absurd (Prod.ext hab.1 hab.2) hd
    · rfl

lemma cellsFree_iff (gr : Grid) (cells : List (Nat × Nat)) :
    cellsFree gr cells = true ↔ ∀ c ∈ cells, gr c.1 c.2 = 0 := by
  simp [cellsFree, List.all_eq_true]

lemma findWitnessIdx_isSome_of {blocked : Grid} {r : Matching}
    (h : ∃ σ ∈ r.orderings, cellsFree blocked (matchCells r σ) = true) :
    ∃ wi, findWitnessIdx blocked r = some wi := by
  obtain ⟨σ, hσ, hfree⟩ := h
  obtain ⟨i, hi, hgi⟩ := List.mem_iff_getElem.mp hσ
  have hp : cellsFree blocked (matchCells r (r.orderings.getD i [])) = true := by
    rwa [List.getD_eq_getElem r.orderings [] hi, hgi]
  have : ((List.range r.orderings.length).find?
      (fun mi => cellsFree blocked (matchCells r (r.orderings.getD mi [])))).isSome := by
    rw [List.find?_isSome]
    exact ⟨i, List.mem_range.mpr hi, hp⟩
  obtain ⟨wi, hwi⟩ := Option.isSome_iff_exists.mp this
  exact ⟨wi, hwi⟩

lemma findWitnessIdx_spec {blocked : Grid} {r : Matching} {wi : Nat}
    (h : findWitnessIdx blocked r = some wi) :
    wi < r.orderings.length
    ∧ cellsFree blocked (matchCells r (r.orderings.getD wi [])) = true := by
  unfold findWitnessIdx at h
  have h2 := List.find?_some h
  exact ⟨List.mem_range.mp (List.mem_of_find?_eq_some h), h2⟩

lemma blocked_fold_inv (g : Graph) (r : Matching) (wi : Nat)
    (witness' : Grid) :
    ∀ (l : List Nat) (b : Grid) (cl : List (List Int)),
      GridInv b witness' →
      GridInv
        (l.foldl
          (fun s mi =>
            if mi = wi then s
            else
              let cells := matchCells r (r.orderings.getD mi [])
              if cellsFree witness' cells then
                (gridMarkCells s.1 cells,
                 s.2 ++ [blocking_clause g r (r.orderings.getD mi [])])
              else s)
          (b, cl)).1
        witness' := by
  intro l
  induction l with
  | nil => intro b cl hinv; exact hinv
  | cons mi l ih =>
    intro b cl hinv
    by_cases hwi : mi = wi
    · simp only [List.foldl_cons, hwi, if_true]
      exact ih b cl hinv
    · by_cases hfree :
        cellsFree witness' (matchCells r (r.orderings.getD mi [])) = true
      · simp only [List.foldl_cons, hwi, if_false, hfree, if_true]
        refine ih _ _ ?_
        intro x y hxy
        rw [gridMarkCells_eq_of_not_mem _ b x y ?_]
        · exact hinv x y hxy
        · intro hmem
          have := (cellsFree_iff witness' _).mp hfree (x, y) hmem
          exact hxy this
      · simp only [List.foldl_cons, hwi, if_false, Bool.not_eq_true] at hfree ⊢
        simp only [hfree, Bool.false_eq_true, if_false]
        exact ih b cl hinv

lemma emit_avoid_record_inv (g : Graph) (b w : Grid) (r : Matching)
    (hinv : GridInv b w) :
    GridInv (emit_avoid_record g b w r).1 (emit_avoid_record g b w r).2.1 := by
  cases hf : findWitnessIdx b r with
  | none => simpa [emit_avoid_record, hf] using hinv
  | some wi =>
    have hspec := findWitnessIdx_spec hf
    simp only [emit_avoid_record, hf]
    refine blocked_fold_inv g r wi _ _ b [] ?_
    intro x y hxy
    by_cases hmem : (x, y) ∈ matchCells r (r.orderings.getD wi [])
    · exact (cellsFree_iff b _).mp hspec.2 (x, y) hmem
    · rw [gridMarkCells_eq_of_not_mem _ w x y hmem] at hxy
      exact hinv x y hxy

lemma emit_avoid_record_witness_mono (g : Graph) (b w : Grid) (r : Matching)
    (x y : Nat) (h : w x y ≠ 0) :
    (emit_avoid_record g b w r).2.1 x y ≠ 0 := by
  cases hf : findWitnessIdx b r with
  | none => simpa [emit_avoid_record, hf] using h
  | some wi =>
    simp only [emit_avoid_record, hf]
    exact gridMarkCells_ne_zero_of _ w x y h

lemma emit_record_avoid_blocked (g : Graph) (method : BlockingMethod)
    (prob : Nat) (randSeq : Nat → Nat) (st : EmitSt) (r : Matching) :
    (emit_record g true method prob randSeq st r).blocked
      = (emit_avoid_record g st.blocked st.witness r).1
    ∧ (emit_record g true method prob randSeq st r).witness
      = (emit_avoid_record g st.blocked st.witness r).2.1 := by
  constructor <;> simp [emit_record]

lemma emit_fold_avoid_inv (g : Graph) (method : BlockingMethod)
    (prob : Nat) (randSeq : Nat → Nat) :
    ∀ (rs : List Matching) (st : EmitSt),
      GridInv st.blocked st.witness →
      GridInv (rs.foldl (emit_record g true method prob randSeq) st).blocked
        (rs.foldl (emit_record g true method prob randSeq) st).witness := by
  intro rs
  induction rs with
  | nil => intro st hinv; exact hinv
  | cons r rs ih =>
    intro st hinv
    rw [List.foldl_cons]
    refine ih _ ?_
    have hb := emit_record_avoid_blocked g method prob randSeq st r
    rw [hb.1, hb.2]
    exact emit_avoid_record_inv g st.blocked st.witness r hinv

lemma emit_fold_avoid_witness_mono (g : Graph) (method : BlockingMethod)
    (prob : Nat) (randSeq : Nat → Nat) :
    ∀ (rs : List Matching) (st : EmitSt) (x y : Nat),
      st.witness x y ≠ 0 →
      (rs.foldl (emit_record g true method prob randSeq) st).witness x y ≠ 0 := by
  intro rs
  induction rs with
  | nil => intro st x y h; exact h
  | cons r rs ih =>
    intro st x y h
    rw [List.foldl_cons]
    refine ih _ x y ?_
    rw [(emit_record_avoid_blocked g method prob randSeq st r).2]
    exact emit_avoid_record_witness_mono g st.blocked st.witness r x y h

/-- Claim C1: after a full run of the witness-avoiding selector, every
record that had at least one ordering whose edges were all unmarked in
the `blocked` grid when the record was processed retains at least one
ordering none of whose edges is marked in the final `blocked` grid. -/
theorem C1_witness_avoidance_safety (g : Graph) (method : BlockingMethod)
    (prob : Nat) (randSeq : Nat → Nat) (pos0 : Nat)
    (rs1 rs2 : List Matching) (r : Matching)
    (hfree : ∃ σ ∈ r.orderings,
      cellsFree (write_blocked_clauses g true method prob randSeq pos0 rs1).blocked
        (matchCells r σ) = true) :
    ∃ σ ∈ r.orderings,
      cellsFree
        (write_blocked_clauses g true method prob randSeq pos0
          (rs1 ++ r :: rs2)).blocked
        (matchCells r σ) = true := by
  obtain ⟨wi, hwi⟩ := findWitnessIdx_isSome_of hfree
  have hspec := findWitnessIdx_spec hwi
  have hsplit :
      write_blocked_clauses g true method prob randSeq pos0 (rs1 ++ r :: rs2)
      = rs2.foldl (emit_record g true method prob randSeq)
          (emit_record g true method prob randSeq
            (write_blocked_clauses g true method prob randSeq pos0 rs1) r) := by
    unfold write_blocked_clauses
    rw [List.foldl_append, List.foldl_cons]
  set pre := write_blocked_clauses g true method prob randSeq pos0 rs1 with hpre
  set σw := r.orderings.getD wi [] with hσw
  have hwmem : σw ∈ r.orderings := by
    rw [hσw, List.getD_eq_getElem r.orderings [] hspec.1]
    exact List.getElem_mem hspec.1
  have hmarked : ∀ c ∈ matchCells r σw,
      (emit_record g true method prob randSeq pre r).witness c.1 c.2 ≠ 0 := by
    intro c hc
    rw [(emit_record_avoid_blocked g method prob randSeq pre r).2]
    simp only [emit_avoid_record, hwi]
    exact gridMarkCells_ne_zero_of_mem _ pre.witness c hc
  have hfinalw : ∀ c ∈ matchCells r σw,
      (rs2.foldl (emit_record g true method prob randSeq)
        (emit_record g true method prob randSeq pre r)).witness c.1 c.2 ≠ 0 := by
    intro c hc
    exact emit_fold_avoid_witness_mono g method prob randSeq rs2 _ c.1 c.2
      (hmarked c hc)
  have hinv0 : GridInv
      (write_blocked_clauses g true method prob randSeq pos0 []).blocked
      (write_blocked_clauses g true method prob randSeq pos0 []).witness := by
    intro x y hxy
    exact absurd rfl hxy
  have hinvpre : GridInv pre.blocked pre.witness := by
    rw [hpre]
    unfold write_blocked_clauses
    exact emit_fold_avoid_inv g method prob randSeq rs1 _ hinv0
  have hinvfinal : GridInv
      (rs2.foldl (emit_record g true method prob randSeq)
        (emit_record g true method prob randSeq pre r)).blocked
      (rs2.foldl (emit_record g true method prob randSeq)
        (emit_record g true method prob randSeq pre r)).witness := by
    refine emit_fold_avoid_inv g method prob randSeq rs2 _ ?_
    have hb := emit_record_avoid_blocked g method prob randSeq pre r
    rw [hb.1, hb.2]
    exact emit_avoid_record_inv g pre.blocked pre.witness r hinvpre
  refine ⟨σw, hwmem, ?_⟩
  rw [hsplit]
  refine (cellsFree_iff _ _).mpr ?_
  intro c hc
  exact hinvfinal c.1 c.2 (hfinalw c hc)

/-- Closed instance of claim C1: the `K_{2,2}` record processed first
against fresh grids has a blocked-free ordering before processing, and
keeps one after the full run. -/
theorem C1_witness_avoidance_safety_witness :
    (∃ σ ∈ sampleRecord22.orderings,
      cellsFree
        (write_blocked_clauses K22 true BlockingMethod.ALL 0 (fun _ => 0) 0
          []).blocked
        (matchCells sampleRecord22 σ) = true)
    ∧ ∃ σ ∈ sampleRecord22.orderings,
        cellsFree
          (write_blocked_clauses K22 true BlockingMethod.ALL 0 (fun _ => 0) 0
            ([] ++ sampleRecord22 :: [])).blocked
          (matchCells sampleRecord22 σ) = true := by
  refine ⟨⟨[0, 1], by decide, by decide⟩, ?_⟩
  exact C1_witness_avoidance_safety K22 BlockingMethod.ALL 0 (fun _ => 0) 0
    [] [] sampleRecord22 ⟨[0, 1], by decide, by decide⟩

/-! ### Enumeration invariants -/

lemma getLast?_mem {α : Type} : ∀ {l : List α} {a : α},
    l.getLast? = some a → a ∈ l := by
  intro l
  induction l with
  | nil => intro a h; simp at h
  | cons x xs ih =>
    intro a h
    cases xs with
    | nil =>
      simp only [List.getLast?_singleton, Option.some.injEq] at h
      subst h
      exact List.mem_singleton_self _
    | cons y ys =>
      rw [List.getLast?_cons_cons] at h
      exact List.mem_cons_of_mem x (ih h)

lemma tail_matches_spec {h : MatchingHeader} {m : Nat} {L R : List Nat}
    (ht : tail_matches h m L R = true) :
    ∃ t, h.records.getLast? = some t
      ∧ t.size = m ∧ t.p1_nodes = L ∧ t.p2_nodes = R := by
  unfold tail_matches at ht
  cases hl : h.records.getLast? with
  | none => rw [hl] at ht; simp at ht
  | some t =>
    rw [hl] at ht
    simp only [Bool.and_eq_true, beq_iff_eq] at ht
    exact ⟨t, rfl, ht.1.1, ht.1.2, ht.2⟩

lemma mem_append_ordering_to_tail {σ : List Nat} :
    ∀ {rs : List Matching} {r : Matching},
      r ∈ append_ordering_to_tail rs σ →
      r ∈ rs
      ∨ ∃ t, rs.getLast? = some t
          ∧ r = { t with orderings := t.orderings ++ [σ] } := by
  intro rs
  induction rs with
  | nil => intro r h; cases h
  | cons x xs ih =>
    intro r h
    cases xs with
    | nil =>
      right
      refine ⟨x, rfl, ?_⟩
      simpa [append_ordering_to_tail] using h
    | cons y ys =>
      rcases List.mem_cons.mp h with hx | hrec
      · exact Or.inl (hx ▸ List.mem_cons_self x (y :: ys))
      · rcases ih hrec with hmem | ⟨t, hlast, heq⟩
        · exact Or.inl (List.mem_cons_of_mem x hmem)
        · exact Or.inr ⟨t, by rw [List.getLast?_cons_cons]; exact hlast, heq⟩

lemma append_ordering_to_tail_sum (σ : List Nat) :
    ∀ (rs : List Matching), rs ≠ [] →
      ((append_ordering_to_tail rs σ).map (fun r => r.orderings.length)).sum
        = ((rs.map (fun r => r.orderings.length)).sum) + 1 := by
  intro rs
  induction rs with
  | nil => intro h; exact absurd rfl h
  | cons x xs ih =>
    intro _
    cases xs with
    | nil => simp [append_ordering_to_tail]
    | cons y ys =>
      show ((x :: append_ordering_to_tail (y :: ys) σ).map _).sum = _
      simp only [List.map_cons, List.sum_cons]
      rw [ih (by simp)]
      simp only [List.map_cons, List.sum_cons]
      omega

lemma store_completed_good (g : Graph) (p1 p2 m : Nat) (L R σ : List Nat)
    (h : MatchingHeader) (hg : GoodBucket g p1 p2 h)
    (hσ : ∀ t < m,
      graph_is_edge_between g p1 (L.getD t 0) p2 (R.getD (σ.getD t 0) 0) = true) :
    GoodBucket g p1 p2 (store_completed m L R σ h) := by
  by_cases ht : tail_matches h m L R = true
  · by_cases hsh : orderings_share_upto (tailOrderings h) σ (m - 1) = true
    · simpa [store_completed, ht, hsh] using hg
    · rw [Bool.not_eq_true] at hsh
      obtain ⟨t0, hlast, hts, htL, htR⟩ := tail_matches_spec ht
      have ht0mem : t0 ∈ h.records := getLast?_mem hlast
      constructor
      · show (store_completed m L R σ h).matchings = _
        simp only [store_completed, ht, if_true, hsh, Bool.false_eq_true, if_false]
        rw [append_ordering_to_tail_sum σ h.records (tail_matches_ne_nil ht)]
        rw [hg.1]
      · intro r hr
        simp only [store_completed, ht, if_true, hsh, Bool.false_eq_true,
          if_false] at hr
        rcases mem_append_ordering_to_tail hr with hmem | ⟨t, hlast', heq⟩
        · exact hg.2 r hmem
        · rw [hlast'] at hlast
          cases hlast
          subst heq
          refine ⟨by simp, ?_⟩
          intro σ' hσ' s hs
          simp only at hσ' hs ⊢
          rcases List.mem_append.mp hσ' with hold | hnew
          · exact (hg.2 t0 ht0mem).2 σ' hold s hs
          · rw [List.mem_singleton.mp hnew]
            rw [hts] at hs
            rw [htL, htR]
            exact hσ s hs
  · rw [Bool.not_eq_true] at ht
    constructor
    · show (store_completed m L R σ h).matchings = _
      simp only [store_completed, ht, Bool.false_eq_true, if_false]
      simp only [List.map_append, List.sum_append, List.map_cons,
        List.sum_cons, List.map_nil, List.sum_nil]
      rw [hg.1]
      simp
    · intro r hr
      simp only [store_completed, ht, Bool.false_eq_true, if_false] at hr
      rcases List.mem_append.mp hr with hmem | hnew
      · exact hg.2 r hmem
      · rw [List.mem_singleton.mp hnew]
        refine ⟨by simp, ?_⟩
        intro σ' hσ' s hs
        simp only [List.mem_singleton] at hσ'
        subst hσ'
        simp only at hs ⊢
        exact hσ s hs

lemma updateRepo_good (g : Graph) (rep : Repo) (p1 p2 root : Nat)
    (h : MatchingHeader) (hrep : GoodRepo g rep)
    (hh : GoodBucket g p1 p2 h) :
    GoodRepo g (updateRepo rep p1 p2 root h) := by
  intro a b c
  show GoodBucket g a b (if a = p1 ∧ b = p2 ∧ c = root then h else rep.find a b c)
  split
  · next heq =>
    rw [heq.1, heq.2.1]
    exact hh
  · exact hrep a b c

lemma listSwap_getD_lt (σ : List Nat) (lo i t : Nat) (hl : t < lo)
    (hi : lo ≤ i) :
    (listSwap σ lo i).getD t 0 = σ.getD t 0 := by
  unfold listSwap
  have h1 : ((σ.set lo (σ.getD i 0)).set i (σ.getD lo 0))[t]? = σ[t]? := by
    rw [List.getElem?_set_ne (by omega : i ≠ t),
      List.getElem?_set_ne (by omega : lo ≠ t)]
  rw [List.getD_eq_getElem?_getD ((σ.set lo (σ.getD i 0)).set i (σ.getD lo 0)) t 0,
    h1, ← List.getD_eq_getElem?_getD σ t 0]

lemma foldl_preserves_repo {α : Type} (P : Repo → Prop) (f : Repo → α → Repo) :
    ∀ (l : List α), (∀ rep a, a ∈ l → P rep → P (f rep a)) →
      ∀ rep, P rep → P (l.foldl f rep) := by
  intro l
  induction l with
  | nil => intro _ rep h; exact h
  | cons a l ih =>
    intro hstep rep h
    rw [List.foldl_cons]
    exact ih (fun rep b hb hp => hstep rep b (List.mem_cons_of_mem a hb) hp)
      (f rep a) (hstep rep a (List.mem_cons_self a l) h)

lemma gsp_good (g : Graph) (hp1 hp2 m : Nat) (L R : List Nat) :
    ∀ (fuel lo : Nat) (σ : List Nat) (rep : Repo),
      GoodRepo g rep →
      PrefixSound g hp1 hp2 L R σ lo →
      GoodRepo g (generate_subset_permutations g hp1 hp2 m L R fuel lo σ rep) := by
  intro fuel
  induction fuel with
  | zero => intro lo σ rep hg _; exact hg
  | succ fuel ih =>
    intro lo σ rep hg hps
    show GoodRepo g (if lo = m - 1 then _ else _)
    by_cases hlo : lo = m - 1
    · rw [if_pos hlo]
      by_cases hedge :
          graph_is_edge_between g hp1 (L.getD lo 0) hp2 (R.getD (σ.getD lo 0) 0)
            = true
      · rw [if_pos hedge]
        refine updateRepo_good g rep hp1 hp2 (L.getD 0 0) _
          (fun a b c => hg a b c) ?_
        refine store_completed_good g hp1 hp2 m L R σ _ (hg hp1 hp2 (L.getD 0 0)) ?_
        intro t htm
        rcases Nat.lt_or_ge t lo with htlo | htlo
        · exact hps t htlo
        · have : t = lo := by omega
          rw [this]
          exact hedge
      · rw [if_neg hedge]
        exact hg
    · rw [if_neg hlo]
      refine foldl_preserves_repo (GoodRepo g) _ (List.range' lo (m - lo)) ?_ rep hg
      intro rep' i hi hrep'
      have hloi : lo ≤ i := by
        have := List.mem_range'_1.mp hi
        omega
      simp only
      by_cases hedge :
          graph_is_edge_between g hp1 (L.getD lo 0) hp2
            (R.getD ((listSwap σ lo i).getD lo 0) 0) = true
      · rw [if_pos hedge]
        have hps' : PrefixSound g hp1 hp2 L R (listSwap σ lo i) (lo + 1) := by
          intro t htlt
          rcases Nat.lt_or_ge t lo with htlo | htlo
          · rw [listSwap_getD_lt σ lo i t htlo hloi]
            exact hps t htlo
          · have : t = lo := by omega
            rw [this]
            exact hedge
        split
        · exact hrep'
        · exact ih (lo + 1) (listSwap σ lo i) rep' hrep' hps'
      · rw [if_neg hedge]
        exact hrep'

lemma generate_permutations_good (g : Graph) (m hp1 hp2 : Nat) (rep : Repo)
    (hg : GoodRepo g rep) :
    GoodRepo g (generate_permutations g m hp1 hp2 rep) := by
  unfold generate_permutations
  refine foldl_preserves_repo (GoodRepo g) _ _ ?_ rep hg
  intro rep' L _ hrep'
  split
  · exact hrep'
  · split
    · exact hrep'
    · refine foldl_preserves_repo (GoodRepo g) _ _ ?_ rep' hrep'
      intro rep'' R _ hrep''
      exact gsp_good g hp1 hp2 m L R m 0 (List.range m) rep'' hrep''
        (fun t ht => absurd ht (Nat.not_lt_zero t))

lemma emptyRepo_good (g : Graph) : GoodRepo g emptyRepo := by
  intro p1 p2 root
  exact ⟨rfl, fun r hr => absurd hr (List.not_mem_nil r)⟩

lemma prune_bucket_mem : ∀ (rs : List Matching) (r : Matching),
    r ∈ (prune_bucket rs).1 → r ∈ rs ∧ r.orderings.length ≠ 1 := by
  intro rs
  induction rs with
  | nil => intro r h; cases h
  | cons x xs ih =>
    intro r h
    by_cases h1 : graph_get_num_similar_matchings x == 1
    · simp only [prune_bucket, h1, if_true] at h
      obtain ⟨hmem, hlen⟩ := ih r h
      exact ⟨List.mem_cons_of_mem x hmem, hlen⟩
    · simp only [prune_bucket, h1, Bool.false_eq_true, if_false] at h
      rcases List.mem_cons.mp h with hx | hrec
      · subst hx
        refine ⟨List.mem_cons_self r xs, ?_⟩
        simpa [graph_get_num_similar_matchings] using h1
      · obtain ⟨hmem, hlen⟩ := ih r hrec
        exact ⟨List.mem_cons_of_mem x hmem, hlen⟩

lemma prune_bucket_sum : ∀ (rs : List Matching),
    (((prune_bucket rs).1.map (fun r => r.orderings.length)).sum
        + (prune_bucket rs).2
      = (rs.map (fun r => r.orderings.length)).sum)
    ∧ (prune_bucket rs).2 ≤ (rs.map (fun r => r.orderings.length)).sum := by
  intro rs
  induction rs with
  | nil => exact ⟨rfl, Nat.le_refl 0⟩
  | cons x xs ih =>
    by_cases h1 : graph_get_num_similar_matchings x == 1
    · have hx1 : x.orderings.length = 1 := by
        simpa [graph_get_num_similar_matchings] using h1
      simp only [prune_bucket, h1, if_true, List.map_cons, List.sum_cons, hx1]
      omega
    · simp only [prune_bucket, h1, Bool.false_eq_true, if_false,
        List.map_cons, List.sum_cons]
      omega

lemma prune_repo_good (g : Graph) (rep : Repo) (hg : GoodRepo g rep) :
    GoodRepo g (prune_repo g rep) := by
  intro p1 p2 root
  show GoodBucket g p1 p2 (if _ then _ else rep.find p1 p2 root)
  split
  · split
    · next =>
      obtain ⟨hsum, hrecs⟩ := hg p1 p2 root
      have hpb := (prune_bucket_sum (rep.find p1 p2 root).records).1
      have hpm := prune_bucket_mem (rep.find p1 p2 root).records
      rcases hEq : prune_bucket (rep.find p1 p2 root).records with ⟨kept, removed⟩
      rw [hEq] at hpb hpm
      simp only at hpb hpm
      show GoodBucket g p1 p2
        { matchings := (rep.find p1 p2 root).matchings - removed,
          records := kept }
      constructor
      · show (rep.find p1 p2 root).matchings - removed = (kept.map _).sum
        omega
      · intro r hr
        exact hrecs r (hpm r hr).1
    · exact hg p1 p2 root
  · exact hg p1 p2 root

lemma generate_matchings_loop_good (g : Graph) (up_to_size : Nat) :
    GoodRepo g (generate_matchings_loop g up_to_size) := by
  unfold generate_matchings_loop
  refine foldl_preserves_repo (GoodRepo g) _ _ ?_ emptyRepo (emptyRepo_good g)
  intro rep m _ hrep
  refine foldl_preserves_repo (GoodRepo g) _ _ ?_ rep hrep
  intro rep' hp1 _ hrep'
  refine foldl_preserves_repo (GoodRepo g) _ _ ?_ rep' hrep'
  intro rep'' hp2 _ hrep''
  exact generate_permutations_good g m hp1 hp2 rep'' hrep''

/-- The full enumeration produces a good repository: counters equal the
number of stored orderings, no record is empty, and every stored
ordering is sound. -/
lemma graph_generate_perfect_matchings_good (g : Graph) (up_to_size : Nat) :
    GoodRepo g (graph_generate_perfect_matchings g up_to_size) :=
  prune_repo_good g _ (generate_matchings_loop_good g up_to_size)

/-- Claim C2: after `graph_generate_perfect_matchings`, for every
partition pair and every root node, every retained vertex-set record has
at least 2 orderings (records with exactly one ordering were deleted by
the post-enumeration prune). -/
theorem C2_no_singleton_records (g : Graph) (maxSize p1 p2 n1 : Nat)
    (hvalid : p1 < g.partitions ∧ p1 < p2 ∧ p2 < g.partitions
      ∧ n1 < g.partition_sizes.getD p1 0)
    (r : Matching)
    (hr : r ∈ ((graph_generate_perfect_matchings g maxSize).find p1 p2 n1).records) :
    2 ≤ graph_get_num_similar_matchings r := by
  have hloop := generate_matchings_loop_good g maxSize
  have hgood := graph_generate_perfect_matchings_good g maxSize
  have hne : r.orderings ≠ [] := ((hgood p1 p2 n1).2 r hr).1
  have hpos : 0 < r.orderings.length := List.length_pos.mpr hne
  have hlen1 : r.orderings.length ≠ 1 := by
    unfold graph_generate_perfect_matchings prune_repo at hr
    dsimp only at hr
    rw [if_pos hvalid] at hr
    by_cases hguard :
        0 < graph_get_num_matchings (generate_matchings_loop g maxSize) p1 n1 p2
    · rw [if_pos hguard] at hr
      have hpm :=
        prune_bucket_mem ((generate_matchings_loop g maxSize).find p1 p2 n1).records
      rcases hEq :
          prune_bucket ((generate_matchings_loop g maxSize).find p1 p2 n1).records
        with ⟨kept, removed⟩
      rw [hEq] at hr hpm
      simp only at hr hpm
      exact (hpm r hr).2
    · rw [if_neg hguard] at hr
      obtain ⟨hsum, _⟩ := hloop p1 p2 n1
      have hzero :
          ((((generate_matchings_loop g maxSize).find p1 p2 n1).records.map
            (fun r => r.orderings.length)).sum) = 0 := by
        unfold graph_get_num_matchings at hguard
        omega
      have hmem : r.orderings.length ∈
          (((generate_matchings_loop g maxSize).find p1 p2 n1).records.map
            (fun r => r.orderings.length)) :=
        List.mem_map_of_mem (fun r => r.orderings.length) hr
      have := List.single_le_sum (fun x _ => Nat.zero_le x) _ hmem
      omega
  unfold graph_get_num_similar_matchings
  omega

/-- Closed instance of claim C2 on the `K_{2,2}` enumeration. -/
theorem C2_no_singleton_records_witness :
    ((0 : Nat) < K22.partitions ∧ 0 < 1 ∧ 1 < K22.partitions
      ∧ 0 < K22.partition_sizes.getD 0 0)
    ∧ sampleRecord22
        ∈ ((graph_generate_perfect_matchings K22 2).find 0 1 0).records
    ∧ 2 ≤ graph_get_num_similar_matchings sampleRecord22 :=
  ⟨by decide, by decide,
    C2_no_singleton_records K22 2 0 1 0 (by decide) sampleRecord22 (by decide)⟩

/-- Claim C6: every ordering stored in the repository after enumeration
is sound — for every position `t` below the record size, the pair
`(L[t], R[σ[t]])` is an edge of the graph between the record's partition
pair. -/
theorem C6_matching_soundness (g : Graph) (maxSize p1 p2 root : Nat)
    (r : Matching)
    (hr : r ∈ ((graph_generate_perfect_matchings g maxSize).find p1 p2 root).records)
    (σ : List Nat) (hσ : σ ∈ r.orderings) (t : Nat)
    (ht : t < graph_get_matching_size r) :
    graph_is_edge_between g p1 (r.p1_nodes.getD t 0) p2
      (r.p2_nodes.getD (σ.getD t 0) 0) = true :=
  (((graph_generate_perfect_matchings_good g maxSize p1 p2 root).2 r hr).2)
    σ hσ t ht

/-- Closed instance of claim C6 on the `K_{2,2}` enumeration. -/
theorem C6_matching_soundness_witness :
    sampleRecord22
      ∈ ((graph_generate_perfect_matchings K22 2).find 0 1 0).records
    ∧ [1, 0] ∈ sampleRecord22.orderings
    ∧ 0 < graph_get_matching_size sampleRecord22
    ∧ graph_is_edge_between K22 0 (sampleRecord22.p1_nodes.getD 0 0) 1
        (sampleRecord22.p2_nodes.getD (([1, 0] : List Nat).getD 0 0) 0) = true :=
  ⟨by decide, by decide, by decide,
    C6_matching_soundness K22 2 0 1 0 sampleRecord22 (by decide) [1, 0]
      (by decide) 0 (by decide)⟩

/-- Claim C10: whenever `graph_get_num_matchings` is positive, the
bucket's record list is non-empty, so `graph_get_first_matching`
returns the first record with its ordering cursor reset to the first
ordering, and the null-dereference branch is unreachable. -/
theorem C10_first_matching_safe (g : Graph) (maxSize p1 n1 p2 : Nat)
    (hpos : 0 < graph_get_num_matchings
      (graph_generate_perfect_matchings g maxSize) p1 n1 p2) :
    ∃ m rest,
      ((graph_generate_perfect_matchings g maxSize).find p1 p2 n1).records
        = m :: rest
      ∧ graph_get_first_matching (graph_generate_perfect_matchings g maxSize)
          p1 n1 p2
        = some { m with iterator := 0 } := by
  obtain ⟨hsum, _⟩ := graph_generate_perfect_matchings_good g maxSize p1 p2 n1
  cases hrec :
      ((graph_generate_perfect_matchings g maxSize).find p1 p2 n1).records with
  | nil =>
    unfold graph_get_num_matchings at hpos
    rw [hrec] at hsum
    simp at hsum
    omega
  | cons m rest =>
    refine ⟨m, rest, rfl, ?_⟩
    unfold graph_get_first_matching
    rw [hrec]

/-- Closed instance of claim C10 on the `K_{2,2}` enumeration. -/
theorem C10_first_matching_safe_witness :
    0 < graph_get_num_matchings (graph_generate_perfect_matchings K22 2) 0 0 1
    ∧ ∃ m rest,
        ((graph_generate_perfect_matchings K22 2).find 0 1 0).records
          = m :: rest
        ∧ graph_get_first_matching (graph_generate_perfect_matchings K22 2)
            0 0 1
          = some { m with iterator := 0 } :=
  ⟨by decide, C10_first_matching_safe K22 2 0 0 1 (by decide)⟩

/-! ### Bipartite edge-id density -/

lemma filter_count_positions (q : Nat → Bool) : ∀ b : Nat,
    ((List.range b).filter q).map (fun x => ((List.range x).filter q).length)
      = List.range ((List.range b).filter q).length := by
  intro b
  induction b with
  | zero => rfl
  | succ b ih =>
    rw [List.range_succ, List.filter_append, List.map_append, ih,
      List.length_append]
    cases hq : q b with
    | false =>
      have hfb : List.filter q [b] = [] := by simp [List.filter, hq]
      rw [hfb]
      simp
    | true =>
      have hfb : List.filter q [b] = [b] := by simp [List.filter, hq]
      rw [hfb]
      show _ ++ [((List.range b).filter q).length]
        = List.range (((List.range b).filter q).length + 1)
      rw [List.range_succ]

lemma map_offset_range (C k : Nat) :
    (List.range k).map (fun c => C + c + 1) = List.range' (C + 1) k := by
  rw [List.range'_eq_map_range]
  refine List.map_congr_left ?_
  intro a _
  omega

lemma row_block (q : Nat → Bool) (s1 C : Nat) :
    ((List.range s1).filter q).map
        (fun n2 => C + ((List.range n2).filter q).length + 1)
      = List.range' (C + 1) (((List.range s1).filter q).length) := by
  have h1 : ((List.range s1).filter q).map
        (fun n2 => C + ((List.range n2).filter q).length + 1)
      = (((List.range s1).filter q).map
          (fun x => ((List.range x).filter q).length)).map
          (fun c => C + c + 1) := by
    rw [List.map_map]
    rfl
  rw [h1, filter_count_positions q s1, map_offset_range]

lemma canonical_edges_bipartite (g : Graph) (h2 : g.partitions = 2) :
    graph_canonical_edges g
      = (List.range (g.partition_sizes.getD 0 0)).flatMap (fun n1 =>
          ((List.range (g.partition_sizes.getD 1 0)).filter
            (fun n2 => graph_is_edge_between g 0 n1 1 n2)).map
            (fun n2 => (0, n1, 1, n2))) := by
  unfold graph_canonical_edges
  rw [h2]
  have hr2 : List.range 2 = [0, 1] := rfl
  rw [hr2]
  simp only [List.flatMap_cons, List.flatMap_nil, List.append_nil]
  have h1 : (List.range (g.partition_sizes.getD 1 0)).flatMap
      (fun n1 => ([] : List (Nat × Nat × Nat × Nat))) = [] := by
    simp
  have hx : (List.range' (1 + 1) (2 - (1 + 1))) = [] := rfl
  rw [hx]
  simp only [List.flatMap_nil]
  have hy : (List.range' (0 + 1) (2 - (0 + 1))) = [1] := rfl
  rw [hy]
  simp

lemma edge_id_bipartite (g : Graph) (h2 : g.partitions = 2)
    (hn : ∀ n < g.partition_sizes.getD 0 0,
      graph_get_num_neighbors g 0 n 1 = (graph_get_neighbors g 0 n 1).length)
    (n1 n2 : Nat) (hb : n1 < g.partition_sizes.getD 0 0)
    (he : graph_is_edge_between g 0 n1 1 n2 = true) :
    graph_get_edge_id g 0 n1 1 n2
      = ((List.range n1).map
          (fun n => (graph_get_neighbors g 0 n 1).length)).sum
        + ((List.range n2).filter
            (fun k => graph_is_edge_between g 0 n1 1 k)).length
        + 1 := by
  unfold graph_get_edge_id
  rw [if_neg (by omega : ¬ (1 : Nat) < 0)]
  unfold graph_get_edge_id_le
  rw [if_neg (by simp [he])]
  have hT2 : ∀ n ∈ List.range n1,
      ((List.range' (0 + 1) (g.partitions - (0 + 1))).map
        (fun p => graph_get_num_neighbors g 0 n p)).sum
      = (graph_get_neighbors g 0 n 1).length := by
    intro n hmem
    have hlt : n < g.partition_sizes.getD 0 0 :=
      Nat.lt_trans (List.mem_range.mp hmem) hb
    rw [h2]
    show ((List.range' 1 1).map _).sum = _
    rw [List.range'_one]
    simp only [List.map_cons, List.map_nil, List.sum_cons, List.sum_nil]
    rw [Nat.add_zero]
    exact hn n hlt
  rw [List.map_congr_left hT2]
  simp

/-- Claim C7 (amended): for every bipartite graph (2 partitions) whose
`num_neighbors[0][1]` counters agree with the adjacency bits,
enumerating all present edges in increasing `(p1, n1, n2)` order with
the canonical orientation `p1 < p2` yields exactly the edge ids
`1 .. E` with no gaps and no repeats.  (For three or more partitions
the ids of edges toward different higher partitions collide, see the
counterexample.) -/
theorem C7_amended_bipartite_edge_ids (g : Graph) (h2 : g.partitions = 2)
    (hn : ∀ n < g.partition_sizes.getD 0 0,
      graph_get_num_neighbors g 0 n 1 = (graph_get_neighbors g 0 n 1).length) :
    graph_canonical_edge_ids g
      = List.range' 1 (graph_canonical_edges g).length := by
  unfold graph_canonical_edge_ids
  rw [canonical_edges_bipartite g h2]
  have main : ∀ k, k ≤ g.partition_sizes.getD 0 0 →
      ((List.range k).flatMap (fun n1 =>
          ((List.range (g.partition_sizes.getD 1 0)).filter
            (fun n2 => graph_is_edge_between g 0 n1 1 n2)).map
            (fun n2 => (0, n1, 1, n2)))).map
        (fun e => graph_get_edge_id g e.1 e.2.1 e.2.2.1 e.2.2.2)
      = List.range' 1
          ((List.range k).map
            (fun n => (graph_get_neighbors g 0 n 1).length)).sum := by
    intro k
    induction k with
    | zero => intro _; rfl
    | succ k ih =>
      intro hk
      have hk' : k ≤ g.partition_sizes.getD 0 0 := Nat.le_of_succ_le hk
      have hkb : k < g.partition_sizes.getD 0 0 := hk
      rw [List.range_succ, List.flatMap_append, List.map_append, ih hk']
      have hrow :
          (((List.range (g.partition_sizes.getD 1 0)).filter
              (fun n2 => graph_is_edge_between g 0 k 1 n2)).map
            (fun n2 => ((0 : Nat), k, (1 : Nat), n2))).map
            (fun e => graph_get_edge_id g e.1 e.2.1 e.2.2.1 e.2.2.2)
          = List.range'
              (((List.range k).map
                (fun n => (graph_get_neighbors g 0 n 1).length)).sum + 1)
              ((graph_get_neighbors g 0 k 1).length) := by
        rw [List.map_map]
        have hpt : ∀ n2 ∈ (List.range (g.partition_sizes.getD 1 0)).filter
            (fun n2 => graph_is_edge_between g 0 k 1 n2),
            ((fun e => graph_get_edge_id g e.1 e.2.1 e.2.2.1 e.2.2.2) ∘
              (fun n2 => ((0 : Nat), k, (1 : Nat), n2))) n2
            = ((List.range k).map
                (fun n => (graph_get_neighbors g 0 n 1).length)).sum
              + ((List.range n2).filter
                  (fun j => graph_is_edge_between g 0 k 1 j)).length
              + 1 := by
          intro n2 hmem
          have he : graph_is_edge_between g 0 k 1 n2 = true :=
            List.of_mem_filter hmem
          exact edge_id_bipartite g h2 hn k n2 hkb he
        rw [List.map_congr_left hpt]
        show ((List.range (g.partition_sizes.getD 1 0)).filter _).map _ = _
        exact row_block (fun n2 => graph_is_edge_between g 0 k 1 n2)
          (g.partition_sizes.getD 1 0)
          (((List.range k).map
            (fun n => (graph_get_neighbors g 0 n 1).length)).sum)
      rw [List.flatMap_singleton, hrow]
      have happ := List.range'_append 1
        (((List.range k).map (fun n => (graph_get_neighbors g 0 n 1).length)).sum)
        ((graph_get_neighbors g 0 k 1).length) 1
      simp only [Nat.one_mul] at happ
      rw [Nat.add_comm 1 _] at happ
      rw [happ]
      rw [List.map_append, List.sum_append]
      simp [Nat.add_comm]
  have hlen : ((List.range (g.partition_sizes.getD 0 0)).flatMap (fun n1 =>
        ((List.range (g.partition_sizes.getD 1 0)).filter
          (fun n2 => graph_is_edge_between g 0 n1 1 n2)).map
          (fun n2 => ((0 : Nat), n1, (1 : Nat), n2)))).length
      = ((List.range (g.partition_sizes.getD 0 0)).map
          (fun n => (graph_get_neighbors g 0 n 1).length)).sum := by
    rw [List.length_flatMap]
    refine congrArg List.sum ?_
    refine List.map_congr_left ?_
    intro n1 _
    show (List.map (fun n2 => ((0 : Nat), n1, (1 : Nat), n2))
      ((List.range (g.partition_sizes.getD 1 0)).filter
        (fun n2 => graph_is_edge_between g 0 n1 1 n2))).length = _
    rw [List.length_map]
    rfl
  rw [hlen]
  exact main (g.partition_sizes.getD 0 0) (Nat.le_refl _)

/-- Closed instance of the amended claim C7 on `K_{3,3}` (as a bipartite
graph with consistent counters). -/
theorem C7_amended_witness :
    K33.partitions = 2
    ∧ (∀ n < K33.partition_sizes.getD 0 0,
        graph_get_num_neighbors K33 0 n 1 = (graph_get_neighbors K33 0 n 1).length)
    ∧ graph_canonical_edge_ids K33
        = List.range' 1 (graph_canonical_edges K33).length :=
  ⟨by decide, by decide,
    C7_amended_bipartite_edge_ids K33 (by decide) (by decide)⟩

end BiPartGen
